import Mathlib

/-!
Verification of the pgdiff schema-diff engine.

This file gives a shallow embedding of the pgdiff sources:
  * the per-kind diff functions of `pgdiff/diff.py` (`diff_identifiers`,
    `diff_view`, `diff_column`, `diff_columns`, `diff_constraints`,
    `diff_table`, `diff_triggers`, `diff_enum`, `diff_indices`, `diff_index`);
  * the dependency graph and change planner of `pgdiff/inspect.py`
    (`Inspection`, its topological traversals, `Inspection.diff`).

Python dictionaries keyed by name/identity are embedded as association
lists; Python sets of strings are embedded as lists filtered by
(decidable) membership.  Functions from `pgdiff/helpers.py` and the
per-kind `diff`/`create`/`drop` dispatchers imported by `inspect.py`
are absent from the sources; those are modelled from the specification
and carry a doc comment saying so.
-/

/-- The seven catalog object kinds (the `obj_type` tag). -/
inductive ObjType where
  | table
  | view
  | index
  | sequence
  | enum
  | function
  | trigger
deriving DecidableEq, Repr

/-- A table column: `(name, type, default, not_null)` as in `diff.py`'s
`Column = t.Tuple[str, str, str, bool]` (the default is `None`-checked in
`diff_column`, hence an `Option`). -/
structure Column where
  name : String
  type : String
  default : Option String
  not_null : Bool
deriving DecidableEq, Repr

/-- A table constraint: `(name, definition)` as in `diff.py`'s
`Constraint = t.Tuple[str, str]`. -/
structure Constraint where
  name : String
  definition : String
deriving DecidableEq, Repr

/-- A catalog object record.  Every object carries `identity`, `obj_type`,
`schema` and `name`; the remaining fields are the kind-specific attributes
of the spec's data model (unused fields default to the empty value for
kinds that do not carry them). -/
structure DBObject where
  identity : String
  obj_type : ObjType
  schema : String := ""
  name : String := ""
  columns : List Column := []
  constraints : List Constraint := []
  definition : String := ""
  is_unique : Bool := false
  is_pk : Bool := false
  elements : List String := []
  table_name : String := ""
  signature : String := ""
deriving DecidableEq, Repr

/-- `diff_identifiers` from `diff.py`: given two identifier sets, return
`(common, unique_to_source, unique_to_target)`.  Python sets of strings are
embedded as lists; each component keeps the iteration order of the operand
it filters. -/
def diff_identifiers (source target : List String) :
    List String × List String × List String :=
  (source.filter (fun x => decide (x ∈ target)),
   source.filter (fun x => decide (x ∉ target)),
   target.filter (fun x => decide (x ∉ source)))

/-- `diff_index` from `diff.py`: the structural index diff is a no-op. -/
def diff_index (_source _target : DBObject) : List String := []

/-- `diff_view` from `diff.py` (lines 84-89): if the definitions differ,
return a single `CREATE OR REPLACE VIEW` statement, else nothing. -/
def diff_view (source target : DBObject) : Option String :=
  if source.definition ≠ target.definition then
    some ("CREATE OR REPLACE VIEW " ++ target.name ++ "\n" ++ target.definition)
  else
    none

/-- `diff_column` from `diff.py` (lines 92-115), embedded verbatim: note
that the emitted fragments do not name the column, and the drop-not-null
branch emits the misspelled `ALTER COLUMN SDROP NOT NULL`. -/
def diff_column (source target : Column) : List String :=
  (if source.type ≠ target.type then
    ["ALTER COLUMN TYPE " ++ target.type]
  else []) ++
  (if source.default ≠ target.default then
    [match target.default with
     | none => "ALTER COLUMN DROP DEFAULT"
     | some d => "ALTER COLUMN SET DEFAULT " ++ d]
  else []) ++
  (if source.not_null ≠ target.not_null then
    [if target.not_null then "ALTER COLUMN SET NOT NULL"
     else "ALTER COLUMN SDROP NOT NULL"]
  else [])

/-- Modelled from the spec: `helpers.get_column` (helpers.py is absent from
the sources) retrieves a table's column by name. -/
def get_column (table : DBObject) (col_name : String) : Option Column :=
  table.columns.find? (fun c => c.name == col_name)

/-- Modelled from the spec: `helpers.get_constraint` (helpers.py is absent
from the sources) retrieves a table's constraint by name. -/
def get_constraint (table : DBObject) (constraint_name : String) : Option Constraint :=
  table.constraints.find? (fun c => c.name == constraint_name)

/-- Modelled from the spec: the rendering of one column used by
`helpers.make_column_add`, emitting `name type [DEFAULT …] [NOT NULL]`. -/
def render_column (c : Column) : String :=
  c.name ++ " " ++ c.type ++
  (match c.default with
   | some d => " DEFAULT " ++ d
   | none => "") ++
  (if c.not_null then " NOT NULL" else "")

/-- Modelled from the spec: `helpers.make_column_add` (helpers.py is absent
from the sources) renders an `ADD COLUMN` alteration. -/
def make_column_add (c : Column) : String :=
  "ADD COLUMN " ++ render_column c

/-- `diff_columns` from `diff.py` (lines 118-134): common columns are
diffed pairwise, source-only columns are dropped, target-only columns are
added. -/
def diff_columns (source target : DBObject) : List String :=
  let ids := diff_identifiers (source.columns.map (·.name)) (target.columns.map (·.name))
  (ids.1.map (fun n =>
    match get_column source n, get_column target n with
    | some sc, some tc => diff_column sc tc
    | _, _ => [])).flatten ++
  ids.2.1.map (fun n => "DROP COLUMN " ++ n) ++
  ids.2.2.filterMap (fun n => (get_column target n).map make_column_add)

/-- `diff_constraints` from `diff.py` (lines 137-155): source-only
constraints are dropped, target-only constraints are added, and common
constraints whose definition changed are dropped and re-added. -/
def diff_constraints (source target : DBObject) : List String :=
  let ids := diff_identifiers (source.constraints.map (·.name)) (target.constraints.map (·.name))
  ids.2.1.map (fun n => "DROP CONSTRAINT " ++ n) ++
  ids.2.2.filterMap (fun n => (get_constraint target n).map
    (fun c => "ADD " ++ n ++ " " ++ c.definition)) ++
  (ids.1.map (fun n =>
    match get_constraint source n, get_constraint target n with
    | some sc, some tc =>
        if sc.definition ≠ tc.definition then
          ["DROP CONSTRAINT " ++ n, "ADD " ++ n ++ " " ++ tc.definition]
        else []
    | _, _ => [])).flatten

/-- `diff_table` from `diff.py` (lines 158-167): one `ALTER TABLE` holding
the column diff followed by the constraint diff, or nothing when both are
empty. -/
def diff_table (source target : DBObject) : Option String :=
  let alterations := diff_columns source target ++ diff_constraints source target
  if alterations.isEmpty then none
  else some ("ALTER TABLE " ++ target.name ++ " " ++ String.intercalate " " alterations)

/-- Lookup of an object by identity in an identity-keyed collection
(`_index_by_id` dictionaries of `diff.py` are embedded as lists keyed by
`identity`). -/
def get_by_id (items : List DBObject) (i : String) : Option DBObject :=
  items.find? (fun o => o.identity == i)

/-- `diff_triggers` from `diff.py` (lines 170-186): source-only triggers are
dropped as `DROP TRIGGER <id>`, target-only triggers emit their definition,
and common triggers whose definition changed are dropped and re-created. -/
def diff_triggers (source target : List DBObject) : List String :=
  let ids := diff_identifiers (source.map (·.identity)) (target.map (·.identity))
  ids.2.1.map (fun i => "DROP TRIGGER " ++ i) ++
  ids.2.2.filterMap (fun i => (get_by_id target i).map (·.definition)) ++
  (ids.1.map (fun i =>
    match get_by_id source i, get_by_id target i with
    | some s, some t =>
        if s.definition ≠ t.definition then
          ["DROP TRIGGER " ++ i, t.definition]
        else []
    | _, _ => [])).flatten

/-- Modelled from the spec: `helpers.make_enum_create` (helpers.py is absent
from the sources) renders the full `CREATE TYPE <identity> AS ENUM (…)`. -/
def make_enum_create (e : DBObject) : String :=
  "CREATE TYPE " ++ e.identity ++ " AS ENUM (" ++
  String.intercalate ", " (e.elements.map (fun el => "\x27" ++ el ++ "\x27")) ++ ")"

/-- `diff_enum` from `diff.py` (lines 216-230): if any element is unique to
the source the type is dropped and re-created; otherwise each element unique
to the target is added with `ALTER TYPE … ADD VALUE`. -/
def diff_enum (source target : DBObject) : List String :=
  let ids := diff_identifiers source.elements target.elements
  if ¬ ids.2.1.isEmpty then
    ["DROP TYPE " ++ source.name, make_enum_create target]
  else
    ids.2.2.map (fun el =>
      "ALTER TYPE " ++ target.name ++ " ADD VALUE \x27" ++ el ++ "\x27")

/-- `diff_indices` from `diff.py` (lines 264-284): source-only indices are
dropped, target-only indices emit their definition unconditionally, and
common indices contribute the (empty) `diff_index`. -/
def diff_indices (source target : List DBObject) : List String :=
  let ids := diff_identifiers (source.map (·.identity)) (target.map (·.identity))
  ids.2.1.map (fun i => "DROP INDEX " ++ i) ++
  ids.2.2.filterMap (fun i => (get_by_id target i).map (·.definition)) ++
  (ids.1.map (fun i =>
    match get_by_id source i, get_by_id target i with
    | some s, some t => diff_index s t
    | _, _ => [])).flatten

/-- A change-set operation of the planner (`"create"`, `"alter"`, `"drop"`). -/
inductive Op where
  | create
  | alter
  | drop
deriving DecidableEq, Repr

/-- One change-set entry `(op, identity)`. -/
abbrev Change := Op × String

/-- The `networkx.DiGraph` the planner consults: nodes in insertion order,
edges `(prerequisite, dependent)` in insertion order. -/
structure Graph where
  nodes : List String
  edges : List (String × String)
deriving DecidableEq, Repr

/-- An `Inspection` as built by `inspect.py`: the iterable of objects (in
insertion order) and the raw dependency records `(identity,
dependency_identity)`. -/
structure Inspection where
  objs : List DBObject
  deps : List (String × String)
deriving DecidableEq, Repr

/-- Node insertion of `Inspection._populate_graph`: `add_node` is a no-op on
an already-present node. -/
def insertNode (ns : List String) (n : String) : List String :=
  if n ∈ ns then ns else ns ++ [n]

/-- The graph nodes: one per object, in first-insertion order. -/
def graphNodes (objs : List DBObject) : List String :=
  objs.foldl (fun ns o => insertNode ns o.identity) []

/-- Edge insertion: `add_edge(di, i)` is a no-op on an already-present edge. -/
def insertEdge (es : List (String × String)) (e : String × String) :
    List (String × String) :=
  if e ∈ es then es else es ++ [e]

/-- The graph edges of `Inspection._populate_graph`: a dependency record
`(i, di)` becomes the edge `(di, i)` (prerequisite to dependent) and is
silently discarded unless both endpoints are nodes. -/
def graphEdges (ns : List String) (deps : List (String × String)) :
    List (String × String) :=
  deps.foldl (fun es d =>
    if d.1 ∈ ns ∧ d.2 ∈ ns then insertEdge es (d.2, d.1) else es) []

/-- The dependency graph of an inspection. -/
def Inspection.graph (insp : Inspection) : Graph :=
  let ns := graphNodes insp.objs
  ⟨ns, graphEdges ns insp.deps⟩

/-- Object lookup `Inspection.__getitem__` (the last assignment to
`self.objects[i]` wins, as in a Python dict). -/
def Inspection.lookup (insp : Inspection) (i : String) : Option DBObject :=
  insp.objs.reverse.find? (fun o => o.identity == i)

/-- Membership `Inspection.__contains__`. -/
def Inspection.hasId (insp : Inspection) (i : String) : Bool :=
  (insp.lookup i).isSome

/-- The nodes of `rem` with no incoming edge from a node still in `rem`:
one generation of Kahn's algorithm, in node insertion order. -/
def zeroIndeg (edges : List (String × String)) (rem : List String) :
    List String :=
  rem.filter (fun n => ¬ edges.any (fun e => e.2 == n && decide (e.1 ∈ rem)))

/-- Generation-by-generation Kahn topological sort, as performed by
`networkx.topological_sort`: emit each generation in node insertion order.
On a cycle the remaining nodes are not emitted. -/
def topoAux (edges : List (String × String)) : Nat → List String → List String
  | 0, _ => []
  | fuel + 1, rem =>
    let z := zeroIndeg edges rem
    if z.isEmpty then []
    else z ++ topoAux edges fuel (rem.filter (fun n => decide (n ∉ z)))

/-- Topological order of a graph's nodes (`Inspection.__iter__`). -/
def topoList (g : Graph) : List String :=
  topoAux g.edges g.nodes.length g.nodes

/-- Topological order of an inspection's identities. -/
def Inspection.topo (insp : Inspection) : List String :=
  topoList insp.graph

/-- One breadth-first expansion step along the edges. -/
def expandStep (edges : List (String × String)) (s : List String) :
    List String :=
  edges.foldl (fun acc e =>
    if e.1 ∈ acc ∧ e.2 ∉ acc then acc ++ [e.2] else acc) s

/-- Iterated expansion until (at most) `fuel` rounds. -/
def expandFuel (edges : List (String × String)) : Nat → List String → List String
  | 0, s => s
  | fuel + 1, s => expandFuel edges fuel (expandStep edges s)

/-- The strict descendants of `id` (`networkx.descendants`): every node
reachable from `id`, excluding `id` itself. -/
def descSet (g : Graph) (i : String) : List String :=
  (expandFuel g.edges g.nodes.length [i]).filter (fun n => n != i)

/-- `Inspection.descendants`: the subgraph on the strict descendants of
`id`, in that subgraph's topological order. -/
def descList (g : Graph) (i : String) : List String :=
  let ds := descSet g i
  let subNodes := g.nodes.filter (fun n => decide (n ∈ ds))
  let subEdges := g.edges.filter (fun e => decide (e.1 ∈ ds) && decide (e.2 ∈ ds))
  topoAux subEdges subNodes.length subNodes

/-- Whether the object registered under identity `d` is a view
(`d["obj_type"] == "view"` in `Inspection.diff`). -/
def Inspection.isView (insp : Inspection) (d : String) : Bool :=
  match insp.lookup d with
  | some o => o.obj_type == ObjType.view
  | none => false

/-- Modelled from the spec: the per-column rules of the table diff handler
dispatched by the planner (the `diff` registry imported by `inspect.py` is
absent from the sources); each fragment names the column. -/
def spec_diff_column (s t : Column) : List String :=
  (if s.type ≠ t.type then
    ["ALTER COLUMN " ++ t.name ++ " TYPE " ++ t.type]
  else []) ++
  (if s.default ≠ t.default then
    [match t.default with
     | none => "ALTER COLUMN " ++ t.name ++ " DROP DEFAULT"
     | some d => "ALTER COLUMN " ++ t.name ++ " SET DEFAULT " ++ d]
  else []) ++
  (if s.not_null ≠ t.not_null then
    [if t.not_null then "ALTER COLUMN " ++ t.name ++ " SET NOT NULL"
     else "ALTER COLUMN " ++ t.name ++ " DROP NOT NULL"]
  else [])

/-- Modelled from the spec: the column part of the planner's table diff
handler (common columns pairwise, source-only dropped, target-only added). -/
def spec_diff_columns (source target : DBObject) : List String :=
  let ids := diff_identifiers (source.columns.map (·.name)) (target.columns.map (·.name))
  (ids.1.map (fun n =>
    match get_column source n, get_column target n with
    | some sc, some tc => spec_diff_column sc tc
    | _, _ => [])).flatten ++
  ids.2.1.map (fun n => "DROP COLUMN " ++ n) ++
  ids.2.2.filterMap (fun n => (get_column target n).map make_column_add)

/-- Modelled from the spec: the constraint part of the planner's table diff
handler. -/
def spec_diff_constraints (source target : DBObject) : List String :=
  let ids := diff_identifiers (source.constraints.map (·.name)) (target.constraints.map (·.name))
  ids.2.1.map (fun n => "DROP CONSTRAINT " ++ n) ++
  ids.2.2.filterMap (fun n => (get_constraint target n).map
    (fun c => "ADD " ++ n ++ " " ++ c.definition)) ++
  (ids.1.map (fun n =>
    match get_constraint source n, get_constraint target n with
    | some sc, some tc =>
        if sc.definition ≠ tc.definition then
          ["DROP CONSTRAINT " ++ n, "ADD " ++ n ++ " " ++ tc.definition]
        else []
    | _, _ => [])).flatten

/-- Modelled from the spec: the per-kind `diff` dispatcher used by the
planner's `"alter"` rendering (`diff(ctx, source, target)` imported by
`inspect.py`; its registry is absent from the sources).  Table: one
`ALTER TABLE <identity>` holding the constraint diff then the column diff;
view: drop then re-create when the definition differs; index and sequence:
no-ops; enum: drop and re-create on a removed element, otherwise one
`ADD VALUE` per added element; function: the target definition; trigger:
drop then re-create. -/
def dispatchDiff (s t : DBObject) : List String :=
  match t.obj_type with
  | ObjType.table =>
    let alterations := spec_diff_constraints s t ++ spec_diff_columns s t
    if alterations.isEmpty then []
    else ["ALTER TABLE " ++ t.identity ++ " " ++ String.intercalate " " alterations]
  | ObjType.view =>
    if s.definition == t.definition then []
    else ["DROP VIEW " ++ t.identity, "CREATE VIEW " ++ t.identity ++ " AS\n" ++ t.definition]
  | ObjType.index => []
  | ObjType.sequence => []
  | ObjType.enum =>
    let ids := diff_identifiers s.elements t.elements
    if ¬ ids.2.1.isEmpty then ["DROP TYPE " ++ t.identity, make_enum_create t]
    else ids.2.2.map (fun el => "ALTER TYPE " ++ t.identity ++ " ADD VALUE \x27" ++ el ++ "\x27")
  | ObjType.function =>
    if s.definition == t.definition then [] else [t.definition]
  | ObjType.trigger =>
    if s.definition == t.definition then []
    else ["DROP TRIGGER " ++ t.name ++ " ON " ++ t.table_name, t.definition]

/-- Modelled from the spec: `helpers.make_table_create`, rendering a full
`CREATE TABLE` with the columns and constraints. -/
def make_table_create (o : DBObject) : String :=
  "CREATE TABLE " ++ o.identity ++ " (" ++
  String.intercalate ", "
    (o.columns.map render_column ++ o.constraints.map (fun c => c.name ++ " " ++ c.definition)) ++ ")"

/-- Modelled from the spec: the per-kind `create` dispatcher used by the
planner's `"create"` rendering (absent from the sources).  An index that is
unique or backs a primary key is suppressed (empty string). -/
def dispatchCreate (o : DBObject) : String :=
  match o.obj_type with
  | ObjType.table => make_table_create o
  | ObjType.view => "CREATE VIEW " ++ o.identity ++ " AS\n" ++ o.definition
  | ObjType.index => if o.is_unique || o.is_pk then "" else o.definition
  | ObjType.sequence => "CREATE SEQUENCE " ++ o.identity
  | ObjType.enum => make_enum_create o
  | ObjType.function => o.definition
  | ObjType.trigger => o.definition

/-- Modelled from the spec: the per-kind `drop` dispatcher used by the
planner's `"drop"` rendering (absent from the sources). -/
def dispatchDrop (o : DBObject) : String :=
  match o.obj_type with
  | ObjType.table => "DROP TABLE " ++ o.identity
  | ObjType.view => "DROP VIEW " ++ o.identity
  | ObjType.index => "DROP INDEX " ++ o.identity
  | ObjType.sequence => "DROP SEQUENCE " ++ o.identity
  | ObjType.enum => "DROP TYPE " ++ o.identity
  | ObjType.function => "DROP FUNCTION " ++ o.identity
  | ObjType.trigger => "DROP TRIGGER " ++ o.name ++ " ON " ++ o.table_name

/-- Removal of leading and trailing whitespace from a string (a structural
implementation of trimming). -/
def trimString (s : String) : String :=
  ⟨((s.data.dropWhile Char.isWhitespace).reverse.dropWhile Char.isWhitespace).reverse⟩

/-- Modelled from the spec: `helpers.format_statement` guarantees a
trailing semicolon and trimmed whitespace. -/
def formatStatement (s : String) : String := trimString s ++ ";"

/-- The cascaded view drops of `Inspection.diff`: the view-typed strict
descendants of `ident` in the source, in reverse topological order. -/
def viewDrops (other : Inspection) (ident : String) : List Change :=
  (((descList other.graph ident).reverse).filter other.isView).map (fun d => (Op.drop, d))

/-- The cascaded view creates of `Inspection.diff`: the view-typed strict
descendants of `ident` in the target, in topological order. -/
def viewCreates (self : Inspection) (ident : String) : List Change :=
  ((descList self.graph ident).filter self.isView).map (fun d => (Op.create, d))

/-- One step of the first classification loop of `Inspection.diff`
(`self` is the target, `other` the source). -/
def phase1Step (self other : Inspection) (acc : List Change) (ident : String) :
    List Change :=
  match other.lookup ident with
  | none => acc ++ [(Op.create, ident)]
  | some _ => acc ++ (viewDrops other ident ++ [(Op.alter, ident)] ++ viewCreates self ident)

/-- The raw change set built by the two classification loops of
`Inspection.diff` (before deduplication). -/
def changesetCode (self other : Inspection) : List Change :=
  let p1 := self.topo.foldl (phase1Step self other) []
  other.topo.reverse.foldl
    (fun acc ident => if self.hasId ident then acc else acc ++ [(Op.drop, ident)]) p1

/-- Index of the first occurrence of `c` (the `min(occ)` of
`Inspection.diff`); returns the length when absent. -/
def firstIdx : List Change → Change → Nat
  | [], _ => 0
  | x :: xs, c => if x = c then 0 else firstIdx xs c + 1

/-- Index of the last occurrence of `c` (the `max(occ)` of
`Inspection.diff`). -/
def lastIdx (l : List Change) (c : Change) : Nat :=
  l.length - 1 - firstIdx l.reverse c

/-- The keep test of the deduplication loop of `Inspection.diff`: a drop is
kept at its first occurrence, a create at its last, an alter always. -/
def keepAt (l : List Change) (i : Nat) (c : Change) : Bool :=
  match c.1 with
  | Op.drop => firstIdx l c == i
  | Op.create => lastIdx l c == i
  | Op.alter => true

/-- The deduplication loop of `Inspection.diff` over the enumerated change
set. -/
def dedupCodeAux (l : List Change) : List Change → Nat → List Change
  | [], _ => []
  | c :: rest, i => (if keepAt l i c then [c] else []) ++ dedupCodeAux l rest (i + 1)

/-- `uniq` of `Inspection.diff`: position-based deduplication of the change
set. -/
def dedupCode (l : List Change) : List Change := dedupCodeAux l l 0

/-- The rendering loop of `Inspection.diff`: an alter dispatches the diff
handler on the source and target objects, a drop dispatches `drop` on the
source object, a create dispatches `create` on the target object and
suppresses an empty statement. -/
def renderChange (source target : Inspection) : Change → List String
  | (Op.alter, ident) =>
    match source.lookup ident, target.lookup ident with
    | some s, some t => (dispatchDiff s t).map formatStatement
    | _, _ => []
  | (Op.drop, ident) =>
    match source.lookup ident with
    | some o => [formatStatement (dispatchDrop o)]
    | none => []
  | (Op.create, ident) =>
    match target.lookup ident with
    | some o =>
      let st := dispatchCreate o
      if st.isEmpty then [] else [formatStatement st]
    | none => []

/-- The deduplicated change set of `target.diff(source)`. -/
def planUniq (source target : Inspection) : List Change :=
  dedupCode (changesetCode target source)

/-- `plan(source, target)`: the full planner `target.diff(source)` of
`inspect.py`, returning the ordered list of rendered statements. -/
def plan (source target : Inspection) : List String :=
  ((planUniq source target).map (renderChange source target)).flatten

/-- The classification formula as the spec states it: walking the target in
topological order, an identity absent from the source yields `(create, id)`;
a common identity yields the view descendants of `id` in the source in
reverse topological order as drops, then `(alter, id)`, then the view
descendants of `id` in the target in topological order as creates. -/
def specPhase1 (self other : Inspection) : List Change :=
  (self.topo.map (fun ident =>
    if (other.lookup ident).isNone then [(Op.create, ident)]
    else
      ((descList other.graph ident).filter other.isView).reverse.map (fun d => (Op.drop, d)) ++
      [(Op.alter, ident)] ++
      ((descList self.graph ident).filter self.isView).map (fun d => (Op.create, d)))).flatten

/-- The second classification walk as the spec states it: the source in
reverse topological order, a drop for every identity absent from the
target. -/
def specPhase2 (self other : Inspection) : List Change :=
  other.topo.reverse.filterMap (fun ident =>
    if (self.lookup ident).isNone then some (Op.drop, ident) else none)

/-- The full classification formula of the spec. -/
def specChangeset (self other : Inspection) : List Change :=
  specPhase1 self other ++ specPhase2 self other

/-- The deduplication rule as the spec states it, walking the change set
with the already-walked prefix at hand: a drop is kept iff it does not occur
earlier, a create iff it does not occur later, an alter always. -/
def dedupSpec : List Change → List Change → List Change
  | _, [] => []
  | pre, c :: post =>
    (match c.1 with
     | Op.drop => if c ∈ pre then [] else [c]
     | Op.create => if c ∈ post then [] else [c]
     | Op.alter => [c]) ++ dedupSpec (pre ++ [c]) post

/-- `a` occurs in `l` strictly before some occurrence of `b`. -/
def stmtPrecedes (l : List String) (a b : String) : Prop :=
  ∃ u v, l = u ++ a :: v ∧ b ∈ v

/-- Concrete table `t` used by the counterexamples. -/
def exT : DBObject := { identity := "t", obj_type := ObjType.table, name := "t" }

/-- Concrete view `v` depending on `t`, used by the self-diff counterexample. -/
def exV : DBObject :=
  { identity := "v", obj_type := ObjType.view, name := "v", definition := "SELECT 1" }

/-- The inspection holding `t` and the view `v` depending on it. -/
def exTV : Inspection := ⟨[exT, exV], [("v", "t")]⟩

/-- Concrete view `p` (a prerequisite of the index below). -/
def exP : DBObject :=
  { identity := "p", obj_type := ObjType.view, name := "p", definition := "SELECT 1" }

/-- Concrete index `vi` depending on the view `p`. -/
def exI : DBObject :=
  { identity := "vi", obj_type := ObjType.index, name := "vi",
    definition := "CREATE INDEX vi ON x (c)" }

/-- Source inspection of the drop-order counterexample: `t`, view `p` on
`t`, index `vi` on `p`. -/
def exSrcDrop : Inspection := ⟨[exT, exP, exI], [("p", "t"), ("vi", "p")]⟩

/-- Target inspection of the drop-order counterexample: only `t` remains. -/
def exTgtDrop : Inspection := ⟨[exT], []⟩

/-- The empty inspection. -/
def exEmpty : Inspection := ⟨[], []⟩

/-- Two independent tables inserted in the order `b`, `a`. -/
def exBA : Inspection :=
  ⟨[{ identity := "b", obj_type := ObjType.table, name := "b" },
    { identity := "a", obj_type := ObjType.table, name := "a" }], []⟩

/-- A view-free inspection (one table, one enum, a dependency), used as the
self-diff witness. -/
def exNoView : Inspection :=
  ⟨[exT, { identity := "e", obj_type := ObjType.enum, name := "mood", elements := ["ok"] }],
   [("t", "e")]⟩

/-- Source table of the alteration-order counterexample: one `int` column. -/
def exTblS : DBObject :=
  { identity := "t", obj_type := ObjType.table, name := "t",
    columns := [⟨"c", "int", none, false⟩] }

/-- Target table of the alteration-order counterexample: the column becomes
`bigint` and a constraint is added. -/
def exTblT : DBObject :=
  { identity := "t", obj_type := ObjType.table, name := "t",
    columns := [⟨"c", "bigint", none, false⟩],
    constraints := [⟨"k", "UNIQUE (a)"⟩] }

/-- A table with no columns and no constraints. -/
def exTblEmpty : DBObject := { identity := "t0", obj_type := ObjType.table, name := "t0" }

/-- Source view of the view-diff counterexample. -/
def exViewS : DBObject :=
  { identity := "v", obj_type := ObjType.view, name := "v", definition := "SELECT 1" }

/-- Target view of the view-diff counterexample (definition changed). -/
def exViewT : DBObject :=
  { identity := "v", obj_type := ObjType.view, name := "v", definition := "SELECT 2" }

/-- A unique index present only in the target of the index counterexample. -/
def exIdxU : DBObject :=
  { identity := "i", obj_type := ObjType.index, name := "i",
    definition := "CREATE UNIQUE INDEX i ON t (c)", is_unique := true }

/-- A primary-key backing index present only in the target. -/
def exIdxPk : DBObject :=
  { identity := "ipk", obj_type := ObjType.index, name := "ipk",
    definition := "CREATE UNIQUE INDEX ipk ON t (id)", is_pk := true }

/-- A trigger whose identity differs from `name ON table`. -/
def exTrg : DBObject :=
  { identity := "trig1", obj_type := ObjType.trigger, name := "tr", table_name := "t",
    definition := "CREATE TRIGGER tr BEFORE INSERT ON t EXECUTE FUNCTION f()" }

/-- Source enum of the enum witness (element `x` removed in the target). -/
def exEnumRemS : DBObject :=
  { identity := "mood", obj_type := ObjType.enum, name := "mood", elements := ["ok", "x"] }

/-- Target enum of the enum witness. -/
def exEnumRemT : DBObject :=
  { identity := "mood", obj_type := ObjType.enum, name := "mood", elements := ["ok"] }

/-- The classification step for one identity in a view-free universe. -/
def step1 (other : Inspection) (ident : String) : Change :=
  if (other.lookup ident).isNone then (Op.create, ident) else (Op.alter, ident)

/-- Table `a` of the witness inspections. -/
def exTa : DBObject := { identity := "a", obj_type := ObjType.table, name := "a" }

/-- Table `b` of the witness inspections. -/
def exTb : DBObject := { identity := "b", obj_type := ObjType.table, name := "b" }

/-- Table `c` of the witness inspections. -/
def exTc : DBObject := { identity := "c", obj_type := ObjType.table, name := "c" }

/-- Table `d` of the witness inspections. -/
def exTd : DBObject := { identity := "d", obj_type := ObjType.table, name := "d" }

/-- Witness target: tables `a`, `b` with dependency `a -> b`. -/
def exAB2 : Inspection := ⟨[exTa, exTb], [("b", "a")]⟩

/-- Witness source: tables `c`, `d` with dependency `c -> d`. -/
def exCD2 : Inspection := ⟨[exTc, exTd], [("d", "c")]⟩

theorem str_wrap_inj (pre post : String) :
    Function.Injective (fun el => pre ++ el ++ post) := by
  intro x y h
  simp only at h
  have hd : (pre ++ x ++ post).data = (pre ++ y ++ post).data := by rw [h]
  simp only [String.data_append, List.append_assoc] at hd
  have := List.append_cancel_right (List.append_cancel_left hd)
  cases x; cases y; exact congrArg String.mk this

theorem diff_enum_eq (s t : DBObject) :
    diff_enum s t =
      if s.elements.filter (fun x => decide (x ∉ t.elements)) ≠ [] then
        ["DROP TYPE " ++ s.name, make_enum_create t]
      else
        (t.elements.filter (fun x => decide (x ∉ s.elements))).map
          (fun el => "ALTER TYPE " ++ t.name ++ " ADD VALUE \x27" ++ el ++ "\x27") := by
  simp only [diff_enum, diff_identifiers, List.isEmpty_iff]

theorem get_by_id_of_nodup (items : List DBObject) (o : DBObject)
    (hn : (items.map (·.identity)).Nodup) (ho : o ∈ items) :
    get_by_id items o.identity = some o := by
  induction items with
  | nil => cases ho
  | cons x rest ih =>
    simp only [List.map_cons, List.nodup_cons] at hn
    rcases List.mem_cons.mp ho with rfl | hmem
    · simp [get_by_id, List.find?]
    · have hne : x.identity ≠ o.identity := by
        intro he
        exact hn.1 (he ▸ List.mem_map_of_mem (·.identity) hmem)
      unfold get_by_id
      simp only [List.find?]
      rw [show (x.identity == o.identity) = false from beq_eq_false_iff_ne.mpr hne]
      exact ih hn.2 hmem

/-- C5 counterexample: the alteration list of `diff_table` puts the column
diff before the constraint diff, not the constraint diff first as the claim
states. -/
theorem claim_C5_counterexample :
    diff_columns exTblS exTblT = ["ALTER COLUMN TYPE bigint"] ∧
    diff_constraints exTblS exTblT = ["ADD k UNIQUE (a)"] ∧
    diff_table exTblS exTblT =
      some ("ALTER TABLE t " ++
        String.intercalate " " (diff_columns exTblS exTblT ++ diff_constraints exTblS exTblT)) ∧
    diff_table exTblS exTblT ≠
      some ("ALTER TABLE t " ++
        String.intercalate " " (diff_constraints exTblS exTblT ++ diff_columns exTblS exTblT)) := by
  decide

/-- C5 (amended): for every pair of tables the table diff emits exactly one
`ALTER TABLE` whose alteration list concatenates, in order, the column diff
followed by the constraint diff, and emits nothing when the combined list is
empty — in particular when both tables have empty column and constraint
sets. -/
theorem claim_C5 (s t : DBObject) :
    (diff_columns s t ++ diff_constraints s t = [] → diff_table s t = none) ∧
    (diff_columns s t ++ diff_constraints s t ≠ [] →
      diff_table s t = some ("ALTER TABLE " ++ t.name ++ " " ++
        String.intercalate " " (diff_columns s t ++ diff_constraints s t))) ∧
    (s.columns = [] → t.columns = [] → s.constraints = [] → t.constraints = [] →
      diff_table s t = none) := by
  refine ⟨?_, ?_, ?_⟩
  · intro h; unfold diff_table; simp [h]
  · intro h; unfold diff_table; simp [h]
  · intro h1 h2 h3 h4
    unfold diff_table diff_columns diff_constraints diff_identifiers
    simp [h1, h2, h3, h4]

/-- C5 witness: the amended theorem applied to a table pair with a nonempty
diff and to the empty-empty pair. -/
theorem claim_C5_witness :
    diff_table exTblS exTblT =
      some ("ALTER TABLE " ++ exTblT.name ++ " " ++
        String.intercalate " " (diff_columns exTblS exTblT ++ diff_constraints exTblS exTblT)) ∧
    diff_table exTblEmpty exTblEmpty = none :=
  ⟨(claim_C5 exTblS exTblT).2.1 (by decide),
   (claim_C5 exTblEmpty exTblEmpty).2.2 (by decide) (by decide) (by decide) (by decide)⟩

/-- C6: evaluating `diff_column` at the spec's own scenario (`c int DEFAULT
0` to `c bigint`) shows the emitted fragments do not name the column, and
the drop-not-null branch emits the misspelled `ALTER COLUMN SDROP NOT
NULL`; the claim (fragments of the form `ALTER COLUMN c TYPE bigint`, `…
DROP NOT NULL`) describes the clear intent, so the code is the bug. -/
theorem claim_C6_code_bug :
    diff_column ⟨"c", "int", some "0", false⟩ ⟨"c", "bigint", none, false⟩ =
      ["ALTER COLUMN TYPE bigint", "ALTER COLUMN DROP DEFAULT"] ∧
    diff_column ⟨"c", "int", none, true⟩ ⟨"c", "int", none, false⟩ =
      ["ALTER COLUMN SDROP NOT NULL"] ∧
    "ALTER COLUMN TYPE bigint" ≠ "ALTER COLUMN c TYPE bigint" ∧
    "ALTER COLUMN SDROP NOT NULL" ≠ "ALTER COLUMN c DROP NOT NULL" := by
  decide

/-- C7 counterexample: on views with differing definitions the view diff
emits one `CREATE OR REPLACE VIEW` statement, not a `DROP VIEW` followed by
a `CREATE VIEW … AS`. -/
theorem claim_C7_counterexample :
    (diff_view exViewS exViewT).toList = ["CREATE OR REPLACE VIEW v\nSELECT 2"] ∧
    (diff_view exViewS exViewT).toList ≠ ["DROP VIEW v", "CREATE VIEW v AS\nSELECT 2"] := by
  decide

/-- C7 (amended): for every pair of views, when the definitions differ the
view diff emits the single statement `CREATE OR REPLACE VIEW <name>` plus
the new definition, and emits nothing when they are equal. -/
theorem claim_C7 (s t : DBObject) :
    (s.definition = t.definition → diff_view s t = none) ∧
    (s.definition ≠ t.definition →
      diff_view s t = some ("CREATE OR REPLACE VIEW " ++ t.name ++ "\n" ++ t.definition)) := by
  constructor
  · intro h; unfold diff_view; simp [h]
  · intro h; unfold diff_view; simp [h]

/-- C7 witness: the amended theorem applied to the concrete view pair and to
an unchanged view. -/
theorem claim_C7_witness :
    diff_view exViewS exViewT =
      some ("CREATE OR REPLACE VIEW " ++ exViewT.name ++ "\n" ++ exViewT.definition) ∧
    diff_view exViewS exViewS = none :=
  ⟨(claim_C7 exViewS exViewT).2 (by decide), (claim_C7 exViewS exViewS).1 rfl⟩

/-- C8: for enums with the same identity, a removed element forces `DROP
TYPE` plus the full `CREATE TYPE … AS ENUM (…)`; otherwise one `ALTER TYPE …
ADD VALUE` per element present only in the target (so a single added element
gives exactly one such statement), and equal element sets give nothing. -/
theorem claim_C8 (s t : DBObject) (hs : s.elements.Nodup) (ht : t.elements.Nodup) :
    ((∃ el ∈ s.elements, el ∉ t.elements) →
        diff_enum s t = ["DROP TYPE " ++ s.name, make_enum_create t]) ∧
    ((∀ el ∈ s.elements, el ∈ t.elements) →
        diff_enum s t = (t.elements.filter (fun el => decide (el ∉ s.elements))).map
          (fun el => "ALTER TYPE " ++ t.name ++ " ADD VALUE \x27" ++ el ++ "\x27")) ∧
    ((∀ el ∈ s.elements, el ∈ t.elements) → ∀ el ∈ t.elements, el ∉ s.elements →
        (diff_enum s t).count
          ("ALTER TYPE " ++ t.name ++ " ADD VALUE \x27" ++ el ++ "\x27") = 1) ∧
    ((∀ el ∈ s.elements, el ∈ t.elements) → (∀ el ∈ t.elements, el ∈ s.elements) →
        diff_enum s t = []) := by
  have hbranch : ∀ (_ : ∀ el ∈ s.elements, el ∈ t.elements),
      diff_enum s t = (t.elements.filter (fun el => decide (el ∉ s.elements))).map
        (fun el => "ALTER TYPE " ++ t.name ++ " ADD VALUE \x27" ++ el ++ "\x27") := by
    intro hno
    have hnil : s.elements.filter (fun x => decide (x ∉ t.elements)) = [] := by
      apply List.filter_eq_nil_iff.mpr
      intro a ha
      simpa using hno a ha
    rw [diff_enum_eq, if_neg (fun hcon => hcon hnil)]
  refine ⟨?_, hbranch, ?_, ?_⟩
  · rintro ⟨el, hmem, hnot⟩
    have hne : s.elements.filter (fun x => decide (x ∉ t.elements)) ≠ [] := by
      intro hnil
      have hthis : el ∈ s.elements.filter (fun x => decide (x ∉ t.elements)) :=
        List.mem_filter.mpr ⟨hmem, by simpa using hnot⟩
      rw [hnil] at hthis
      exact absurd hthis (List.not_mem_nil el)
    rw [diff_enum_eq, if_pos hne]
  · intro hno el hmem hnot
    rw [hbranch hno]
    have hfn : (t.elements.filter (fun el => decide (el ∉ s.elements))).Nodup :=
      ht.filter _
    have hmm : el ∈ t.elements.filter (fun el => decide (el ∉ s.elements)) :=
      List.mem_filter.mpr ⟨hmem, by simpa using hnot⟩
    have hinj : Function.Injective
        (fun el => "ALTER TYPE " ++ t.name ++ " ADD VALUE \x27" ++ el ++ "\x27") := by
      intro x y h
      exact str_wrap_inj ("ALTER TYPE " ++ t.name ++ " ADD VALUE \x27") "\x27"
        (by simpa [String.append_assoc] using h)
    exact List.count_eq_one_of_mem (hfn.map hinj) (List.mem_map_of_mem _ hmm)
  · intro hst hts
    rw [hbranch hst]
    have hnil : t.elements.filter (fun el => decide (el ∉ s.elements)) = [] := by
      apply List.filter_eq_nil_iff.mpr
      intro a ha
      simpa using hts a ha
    rw [hnil]
    rfl

/-- C8 witness: the theorem applied to a removal pair and to a
single-element addition. -/
theorem claim_C8_witness :
    diff_enum exEnumRemS exEnumRemT = ["DROP TYPE mood", make_enum_create exEnumRemT] ∧
    (diff_enum exEnumRemT exEnumRemS).count
      ("ALTER TYPE mood ADD VALUE \x27x\x27") = 1 :=
  ⟨(claim_C8 exEnumRemS exEnumRemT (by decide) (by decide)).1
      ⟨"x", by decide, by decide⟩,
   (claim_C8 exEnumRemT exEnumRemS (by decide) (by decide)).2.2.1
      (by decide) "x" (by decide) (by decide)⟩

/-- C9 counterexample: a unique index (and a primary-key backing index)
present only in the target has its definition emitted by `diff_indices`,
although the claim says such an index is never emitted as a create. -/
theorem claim_C9_counterexample :
    diff_indices [] [exIdxU] = ["CREATE UNIQUE INDEX i ON t (c)"] ∧
    exIdxU.is_unique = true ∧
    diff_indices [] [exIdxPk] = ["CREATE UNIQUE INDEX ipk ON t (id)"] ∧
    exIdxPk.is_pk = true := by
  decide

/-- C9 (amended): for every index present only in the target, `diff_indices`
emits the index's definition as a creation statement unconditionally,
regardless of the `is_unique` and `is_pk` flags. -/
theorem claim_C9 (source target : List DBObject) (o : DBObject)
    (ho : o ∈ target) (hn : (target.map (·.identity)).Nodup)
    (habs : ∀ x ∈ source, x.identity ≠ o.identity) :
    o.definition ∈ diff_indices source target := by
  unfold diff_indices diff_identifiers
  refine List.mem_append.mpr (Or.inl (List.mem_append.mpr (Or.inr ?_)))
  refine List.mem_filterMap.mpr ⟨o.identity, ?_, ?_⟩
  · refine List.mem_filter.mpr ⟨List.mem_map_of_mem _ ho, ?_⟩
    simp only [decide_eq_true_eq]
    intro hmem
    rcases List.mem_map.mp hmem with ⟨x, hx, hxi⟩
    exact habs x hx hxi
  · rw [get_by_id_of_nodup target o hn ho]
    rfl

/-- C9 witness: the amended theorem applied to the unique index, showing its
definition is emitted. -/
theorem claim_C9_witness : exIdxU.definition ∈ diff_indices [] [exIdxU] :=
  claim_C9 [] [exIdxU] exIdxU (by decide) (by decide) (by decide)

/-- C10 counterexample: dropping a trigger emits `DROP TRIGGER <identity>`
with no `ON <table>` clause, not the claimed `DROP TRIGGER <name> ON
<table_name>`. -/
theorem claim_C10_counterexample :
    diff_triggers [exTrg] [] = ["DROP TRIGGER trig1"] ∧
    exTrg.name = "tr" ∧ exTrg.table_name = "t" ∧
    "DROP TRIGGER trig1" ≠ "DROP TRIGGER tr ON t" := by
  decide

/-- C10 (amended): for every trigger present in the source and absent from
the target, the emitted drop statement is `DROP TRIGGER <identity>` (no
`ON` clause). -/
theorem claim_C10 (source target : List DBObject) (o : DBObject)
    (ho : o ∈ source) (habs : ∀ x ∈ target, x.identity ≠ o.identity) :
    ("DROP TRIGGER " ++ o.identity) ∈ diff_triggers source target := by
  unfold diff_triggers diff_identifiers
  refine List.mem_append.mpr (Or.inl (List.mem_append.mpr (Or.inl ?_)))
  refine List.mem_map.mpr ⟨o.identity, ?_, rfl⟩
  refine List.mem_filter.mpr ⟨List.mem_map_of_mem _ ho, ?_⟩
  simp only [decide_eq_true_eq]
  intro hmem
  rcases List.mem_map.mp hmem with ⟨x, hx, hxi⟩
  exact habs x hx hxi

/-- C10 witness: the amended theorem applied to the concrete trigger. -/
theorem claim_C10_witness : ("DROP TRIGGER " ++ exTrg.identity) ∈ diff_triggers [exTrg] [] :=
  claim_C10 [exTrg] [] exTrg (by decide) (by decide)

theorem foldl_step_flatten {α β : Type} (f : List β → α → List β) (g : α → List β)
    (hf : ∀ acc x, f acc x = acc ++ g x) :
    ∀ (xs : List α) (init : List β), xs.foldl f init = init ++ (xs.map g).flatten := by
  intro xs
  induction xs with
  | nil => intro init; simp
  | cons x rest ih =>
    intro init
    simp only [List.foldl_cons, List.map_cons, List.flatten_cons]
    rw [hf init x, ih (init ++ g x)]
    simp [List.append_assoc]

theorem phase1Step_eq (self other : Inspection) (acc : List Change) (ident : String) :
    phase1Step self other acc ident = acc ++
      (if (other.lookup ident).isNone then [(Op.create, ident)]
       else viewDrops other ident ++ [(Op.alter, ident)] ++ viewCreates self ident) := by
  unfold phase1Step
  cases h : other.lookup ident <;> simp [h]

theorem viewDrops_eq (other : Inspection) (ident : String) :
    viewDrops other ident =
      ((descList other.graph ident).filter other.isView).reverse.map (fun d => (Op.drop, d)) := by
  unfold viewDrops
  rw [List.filter_reverse]

theorem phase2_flatten_eq_filterMap (self : Inspection) :
    ∀ xs : List String,
      (xs.map (fun ident => if self.hasId ident then ([] : List Change)
        else [(Op.drop, ident)])).flatten =
      xs.filterMap (fun ident =>
        if (self.lookup ident).isNone then some (Op.drop, ident) else none) := by
  intro xs
  induction xs with
  | nil => rfl
  | cons x rest ih =>
    simp only [List.map_cons, List.flatten_cons, List.filterMap_cons]
    cases h : self.lookup x with
    | none =>
      have h1 : self.hasId x = false := by simp [Inspection.hasId, h]
      rw [h1]
      simpa using ih
    | some v =>
      have h1 : self.hasId x = true := by simp [Inspection.hasId, h]
      rw [h1]
      simpa using ih

theorem changesetCode_eq_spec (self other : Inspection) :
    changesetCode self other = specChangeset self other := by
  unfold changesetCode specChangeset specPhase1 specPhase2
  rw [foldl_step_flatten (phase1Step self other)
    (fun ident => if (other.lookup ident).isNone then [(Op.create, ident)]
      else viewDrops other ident ++ [(Op.alter, ident)] ++ viewCreates self ident)
    (phase1Step_eq self other)]
  rw [foldl_step_flatten
    (fun acc ident => if self.hasId ident then acc else acc ++ [(Op.drop, ident)])
    (fun ident => if self.hasId ident then [] else [(Op.drop, ident)])
    (by intro acc x; cases h : self.hasId x <;> simp [h])]
  rw [phase2_flatten_eq_filterMap self]
  simp only [List.nil_append, viewDrops_eq, viewCreates]

theorem firstIdx_append_of_not_mem (c : Change) :
    ∀ (pre : List Change), c ∉ pre → ∀ post, firstIdx (pre ++ c :: post) c = pre.length := by
  intro pre
  induction pre with
  | nil =>
    intro _ post
    simp [firstIdx]
  | cons x xs ih =>
    intro h post
    have hxc : ¬ x = c := fun he => h (he ▸ List.mem_cons_self x xs)
    simp only [List.cons_append, firstIdx, if_neg hxc, List.length_cons, List.append_eq]
    rw [ih (fun hm => h (List.mem_cons_of_mem x hm)) post]

theorem firstIdx_lt_of_mem (c : Change) :
    ∀ (pre : List Change), c ∈ pre → ∀ rest, firstIdx (pre ++ rest) c < pre.length := by
  intro pre
  induction pre with
  | nil => intro h; cases h
  | cons x xs ih =>
    intro h rest
    by_cases hxc : x = c
    · simp [firstIdx, hxc]
    · have hc : c ∈ xs := by
        rcases List.mem_cons.mp h with he | hm
        · exact absurd he.symm hxc
        · exact hm
      simp only [List.cons_append, firstIdx, if_neg hxc, List.length_cons]
      exact Nat.succ_lt_succ (ih hc rest)

theorem firstIdx_eq_iff (c : Change) (pre post : List Change) :
    firstIdx (pre ++ c :: post) c = pre.length ↔ c ∉ pre := by
  constructor
  · intro h hc
    exact absurd h (Nat.ne_of_lt (firstIdx_lt_of_mem c pre hc (c :: post)))
  · intro h
    exact firstIdx_append_of_not_mem c pre h post

theorem lastIdx_eq_iff (c : Change) (pre post : List Change) :
    lastIdx (pre ++ c :: post) c = pre.length ↔ c ∉ post := by
  unfold lastIdx
  have hrev : (pre ++ c :: post).reverse = post.reverse ++ c :: pre.reverse := by
    simp
  have hlen : (pre ++ c :: post).length = pre.length + post.length + 1 := by
    simp
    omega
  rw [hrev, hlen]
  by_cases hc : c ∈ post
  · have hlt : firstIdx (post.reverse ++ c :: pre.reverse) c < post.length := by
      have := firstIdx_lt_of_mem c post.reverse (List.mem_reverse.mpr hc) (c :: pre.reverse)
      simpa using this
    constructor
    · intro h
      omega
    · intro h
      exact absurd hc h
  · have heq : firstIdx (post.reverse ++ c :: pre.reverse) c = post.length := by
      have := firstIdx_append_of_not_mem c post.reverse
        (fun hm => hc (List.mem_reverse.mp hm)) pre.reverse
      simpa using this
    rw [heq]
    constructor
    · intro _
      exact hc
    · intro _
      omega

theorem dedupAux_eq_spec :
    ∀ (post pre : List Change), dedupCodeAux (pre ++ post) post pre.length = dedupSpec pre post := by
  intro post
  induction post with
  | nil => intro pre; rfl
  | cons c post' ih =>
    intro pre
    have hrec : dedupCodeAux (pre ++ c :: post') post' (pre.length + 1) =
        dedupSpec (pre ++ [c]) post' := by
      have h2 := ih (pre ++ [c])
      have e1 : (pre ++ [c]) ++ post' = pre ++ c :: post' := by simp
      have e2 : (pre ++ [c]).length = pre.length + 1 := by simp
      rw [e1, e2] at h2
      exact h2
    simp only [dedupCodeAux, dedupSpec, hrec]
    congr 1
    obtain ⟨op, ident⟩ := c
    cases op with
    | drop =>
      simp only [keepAt]
      by_cases hc : (Op.drop, ident) ∈ pre
      · have hb : (firstIdx (pre ++ (Op.drop, ident) :: post') (Op.drop, ident) ==
            pre.length) = false := by
          rw [beq_eq_false_iff_ne]
          exact fun he => ((firstIdx_eq_iff _ pre post').mp he) hc
        simp [hb, hc]
      · have hb : (firstIdx (pre ++ (Op.drop, ident) :: post') (Op.drop, ident) ==
            pre.length) = true :=
          beq_iff_eq.mpr ((firstIdx_eq_iff _ pre post').mpr hc)
        simp [hb, hc]
    | create =>
      simp only [keepAt]
      by_cases hc : (Op.create, ident) ∈ post'
      · have hb : (lastIdx (pre ++ (Op.create, ident) :: post') (Op.create, ident) ==
            pre.length) = false := by
          rw [beq_eq_false_iff_ne]
          exact fun he => ((lastIdx_eq_iff _ pre post').mp he) hc
        simp [hb, hc]
      · have hb : (lastIdx (pre ++ (Op.create, ident) :: post') (Op.create, ident) ==
            pre.length) = true :=
          beq_iff_eq.mpr ((lastIdx_eq_iff _ pre post').mpr hc)
        simp [hb, hc]
    | alter => rfl

theorem dedupCode_eq_spec (l : List Change) : dedupCode l = dedupSpec [] l := by
  have := dedupAux_eq_spec l []
  simpa [dedupCode] using this

/-- C1: the planner's change set is exactly the spec's classify-then-
deduplicate algorithm. -/
theorem claim_C1 (source target : Inspection) :
    changesetCode target source = specChangeset target source ∧
    planUniq source target = dedupSpec [] (specChangeset target source) := by
  have h := changesetCode_eq_spec target source
  exact ⟨h, by rw [planUniq, h, dedupCode_eq_spec]⟩

theorem zeroIndeg_subset (edges : List (String × String)) (rem : List String) :
    ∀ x ∈ zeroIndeg edges rem, x ∈ rem := by
  intro x hx
  exact (List.mem_filter.mp hx).1

theorem topoAux_subset (edges : List (String × String)) :
    ∀ (fuel : Nat) (rem : List String), ∀ x ∈ topoAux edges fuel rem, x ∈ rem := by
  intro fuel
  induction fuel with
  | zero => intro rem x hx; cases hx
  | succ f ih =>
    intro rem x hx
    unfold topoAux at hx
    by_cases hz : (zeroIndeg edges rem).isEmpty
    · rw [if_pos hz] at hx; cases hx
    · rw [if_neg hz] at hx
      rcases List.mem_append.mp hx with h1 | h2
      · exact zeroIndeg_subset edges rem x h1
      · exact (List.mem_filter.mp (ih _ x h2)).1

theorem mem_insertNode (ns : List String) (n x : String) :
    x ∈ insertNode ns n ↔ x ∈ ns ∨ x = n := by
  unfold insertNode
  by_cases h : n ∈ ns
  · rw [if_pos h]
    constructor
    · exact Or.inl
    · rintro (hx | rfl)
      · exact hx
      · exact h
  · rw [if_neg h]
    simp

theorem mem_graphNodes (objs : List DBObject) (x : String) :
    x ∈ graphNodes objs ↔ ∃ o ∈ objs, o.identity = x := by
  unfold graphNodes
  suffices hgen : ∀ (acc : List String),
      x ∈ objs.foldl (fun ns o => insertNode ns o.identity) acc ↔
        x ∈ acc ∨ ∃ o ∈ objs, o.identity = x by
    rw [hgen []]
    simp
  induction objs with
  | nil => intro acc; simp
  | cons o rest ih =>
    intro acc
    simp only [List.foldl_cons]
    rw [ih (insertNode acc o.identity), mem_insertNode]
    constructor
    · rintro ((h1 | h2) | h3)
      · exact Or.inl h1
      · exact Or.inr ⟨o, List.mem_cons_self o rest, h2.symm⟩
      · rcases h3 with ⟨o2, ho2, he⟩
        exact Or.inr ⟨o2, List.mem_cons_of_mem o ho2, he⟩
    · rintro (h1 | ⟨o2, ho2, he⟩)
      · exact Or.inl (Or.inl h1)
      · rcases List.mem_cons.mp ho2 with rfl | hr
        · exact Or.inl (Or.inr he.symm)
        · exact Or.inr ⟨o2, hr, he⟩

theorem lookup_isSome_of_mem (insp : Inspection) (i : String)
    (h : ∃ o ∈ insp.objs, o.identity = i) : (insp.lookup i).isSome := by
  rcases h with ⟨o, ho, he⟩
  unfold Inspection.lookup
  rw [List.find?_isSome]
  exact ⟨o, List.mem_reverse.mpr ho, by simp [he]⟩

theorem lookup_isSome_of_mem_topo (insp : Inspection) (i : String)
    (h : i ∈ insp.topo) : (insp.lookup i).isSome := by
  apply lookup_isSome_of_mem
  have hnodes : i ∈ insp.graph.nodes :=
    topoAux_subset insp.graph.edges insp.graph.nodes.length insp.graph.nodes i h
  exact (mem_graphNodes insp.objs i).mp hnodes

theorem flatten_map_nil {α β : Type} (f : α → List β) :
    ∀ (l : List α), (∀ x ∈ l, f x = []) → (l.map f).flatten = [] := by
  intro l
  induction l with
  | nil => intro _; rfl
  | cons x rest ih =>
    intro h
    simp only [List.map_cons, List.flatten_cons]
    rw [h x (List.mem_cons_self x rest), ih (fun y hy => h y (List.mem_cons_of_mem x hy))]
    rfl

theorem flatten_map_singleton {α β : Type} (f : α → List β) (g : α → β) :
    ∀ (l : List α), (∀ x ∈ l, f x = [g x]) → (l.map f).flatten = l.map g := by
  intro l
  induction l with
  | nil => intro _; rfl
  | cons x rest ih =>
    intro h
    simp only [List.map_cons, List.flatten_cons]
    rw [h x (List.mem_cons_self x rest), ih (fun y hy => h y (List.mem_cons_of_mem x hy))]
    rfl

theorem filter_mem_self (l : List String) : l.filter (fun x => decide (x ∈ l)) = l :=
  List.filter_eq_self.mpr (fun x hx => by simpa using hx)

theorem filter_not_mem_self (l : List String) : l.filter (fun x => decide (x ∉ l)) = [] :=
  List.filter_eq_nil_iff.mpr (fun x hx => by simpa using hx)

theorem spec_diff_column_self (c : Column) : spec_diff_column c c = [] := by
  simp [spec_diff_column]

theorem spec_diff_columns_self (o : DBObject) : spec_diff_columns o o = [] := by
  unfold spec_diff_columns diff_identifiers
  rw [filter_mem_self, filter_not_mem_self]
  simp only [List.map_nil, List.filterMap_nil, List.append_nil]
  rw [flatten_map_nil]
  intro n _
  cases h : get_column o n with
  | none => rfl
  | some c => simp [spec_diff_column_self]

theorem spec_diff_constraints_self (o : DBObject) : spec_diff_constraints o o = [] := by
  unfold spec_diff_constraints diff_identifiers
  rw [filter_mem_self, filter_not_mem_self]
  simp only [List.map_nil, List.filterMap_nil, List.nil_append]
  rw [flatten_map_nil]
  intro n _
  cases h : get_constraint o n with
  | none => rfl
  | some c => simp

theorem dispatchDiff_self (o : DBObject) : dispatchDiff o o = [] := by
  unfold dispatchDiff
  cases h : o.obj_type with
  | table => rw [spec_diff_constraints_self, spec_diff_columns_self]; rfl
  | view => simp
  | index => rfl
  | sequence => rfl
  | enum =>
    unfold diff_identifiers
    rw [filter_not_mem_self]
    simp [filter_not_mem_self]
  | function => simp
  | trigger => simp

theorem dedupCodeAux_all_alter (l : List Change) :
    ∀ (post : List Change) (i : Nat), (∀ c ∈ post, c.1 = Op.alter) →
      dedupCodeAux l post i = post := by
  intro post
  induction post with
  | nil => intro i _; rfl
  | cons c rest ih =>
    intro i h
    have h1 : keepAt l i c = true := by
      obtain ⟨op, ident⟩ := c
      have := h (op, ident) (List.mem_cons_self _ rest)
      simp only at this
      subst this
      rfl
    simp only [dedupCodeAux, h1, if_pos]
    rw [ih (i + 1) (fun d hd => h d (List.mem_cons_of_mem c hd))]
    rfl

theorem changesetCode_self_all_alter (x : Inspection)
    (h : ∀ ident ∈ x.topo, (descList x.graph ident).filter x.isView = []) :
    changesetCode x x = x.topo.map (fun ident => (Op.alter, ident)) := by
  unfold changesetCode
  rw [foldl_step_flatten (phase1Step x x)
    (fun ident => if (x.lookup ident).isNone then [(Op.create, ident)]
      else viewDrops x ident ++ [(Op.alter, ident)] ++ viewCreates x ident)
    (phase1Step_eq x x)]
  rw [foldl_step_flatten
    (fun acc ident => if x.hasId ident then acc else acc ++ [(Op.drop, ident)])
    (fun ident => if x.hasId ident then [] else [(Op.drop, ident)])
    (by intro acc i; cases hh : x.hasId i <;> simp [hh])]
  have h2 : (x.topo.reverse.map (fun ident =>
      if x.hasId ident then ([] : List Change) else [(Op.drop, ident)])).flatten = [] := by
    apply flatten_map_nil
    intro i hi
    have : x.hasId i = true := lookup_isSome_of_mem_topo x i (List.mem_reverse.mp hi)
    rw [this]
    rfl
  rw [h2, List.append_nil, List.nil_append]
  apply flatten_map_singleton
  intro i hi
  have hs : (x.lookup i).isSome := lookup_isSome_of_mem_topo x i hi
  have hn : (x.lookup i).isNone = false := by
    cases hl : x.lookup i
    · rw [hl] at hs; cases hs
    · rfl
  rw [hn]
  have hd : viewDrops x i = [] := by
    rw [viewDrops_eq, h i hi]
    rfl
  have hc : viewCreates x i = [] := by
    unfold viewCreates
    rw [h i hi]
    rfl
  rw [hd, hc]
  rfl

/-- C3 counterexample: diffing the inspection holding table `t` and view `v`
(depending on `t`) against itself yields a spurious drop-and-recreate of the
view, not the empty list. -/
theorem claim_C3_counterexample :
    plan exTV exTV = ["DROP VIEW v;", "CREATE VIEW v AS\nSELECT 1;"] ∧
    plan exTV exTV ≠ [] := by
  decide

/-- C3 (amended): diffing an inspection against itself yields the empty
list whenever no walked identity has a view-typed strict descendant (if some
view depends on another object, the planner emits a spurious drop and
recreate of that view even though nothing changed). -/
theorem claim_C3 (x : Inspection)
    (h : ∀ ident ∈ x.topo, (descList x.graph ident).filter x.isView = []) :
    plan x x = [] := by
  unfold plan planUniq
  rw [changesetCode_self_all_alter x h]
  rw [dedupCode, dedupCodeAux_all_alter _ _ 0 (by
    intro c hc
    rcases List.mem_map.mp hc with ⟨i, _, rfl⟩
    rfl)]
  apply flatten_map_nil
  intro c hc
  rcases List.mem_map.mp hc with ⟨i, hi, rfl⟩
  have hs : (x.lookup i).isSome := lookup_isSome_of_mem_topo x i hi
  rcases Option.isSome_iff_exists.mp hs with ⟨o, ho⟩
  simp only [renderChange, ho, dispatchDiff_self, List.map_nil]

/-- C3 witness: the amended theorem applied to a view-free inspection with a
dependency. -/
theorem claim_C3_witness : plan exNoView exNoView = [] :=
  claim_C3 exNoView (by decide)

theorem topoAux_nil_rem (edges : List (String × String)) :
    ∀ fuel : Nat, topoAux edges fuel [] = [] := by
  intro fuel
  cases fuel with
  | zero => rfl
  | succ f => rfl

theorem topoAux_edgeless : ∀ (rem : List String), topoAux [] rem.length rem = rem := by
  intro rem
  cases rem with
  | nil => rfl
  | cons x xs =>
    have hz : zeroIndeg [] (x :: xs) = x :: xs := by
      unfold zeroIndeg
      apply List.filter_eq_self.mpr
      intro a _
      simp
    simp only [List.length_cons, topoAux, hz]
    rw [show ((x :: xs).isEmpty = false) from rfl]
    simp only [Bool.false_eq_true, if_false]
    rw [filter_not_mem_self (x :: xs), topoAux_nil_rem, List.append_nil]

/-- C4 counterexample: with two independent tables inserted in the order
`b`, `a`, the planner emits their creations in graph insertion order, not in
ascending identity order as the claim's tie-break rule requires. -/
theorem claim_C4_counterexample :
    plan exEmpty exBA = ["CREATE TABLE b ();", "CREATE TABLE a ();"] ∧
    plan exEmpty exBA ≠ ["CREATE TABLE a ();", "CREATE TABLE b ();"] ∧
    exBA.objs.map (fun o => o.identity) = ["b", "a"] ∧
    ("a").data = ['a'] ∧ ("b").data = ['b'] ∧ ('a' : Char) < 'b' ∧
    exBA.deps = [] := by
  refine ⟨by decide, by decide, by decide, rfl, rfl, by decide, rfl⟩

theorem topoList_first_generation (g : Graph) (hne : zeroIndeg g.edges g.nodes ≠ []) :
    ∃ rest, topoList g = zeroIndeg g.edges g.nodes ++ rest := by
  unfold topoList
  rcases hn : g.nodes with _ | ⟨x, xs⟩
  · exact absurd (by rw [hn]; rfl) hne
  · rw [hn] at hne
    have hfalse : (zeroIndeg g.edges (x :: xs)).isEmpty = false := by
      cases hz : zeroIndeg g.edges (x :: xs) with
      | nil => exact absurd hz hne
      | cons a l => rfl
    refine ⟨topoAux g.edges xs.length
      ((x :: xs).filter (fun n => decide (n ∉ zeroIndeg g.edges (x :: xs)))), ?_⟩
    simp only [List.length_cons, topoAux, hfalse, Bool.false_eq_true, if_false]

/-- C4 (amended): the planner is a pure function of the two inspections
(repeated invocations on equal inputs give equal outputs), and topological
ties are broken deterministically but not by ascending identity string:
whenever some identities have no prerequisite edge, those are emitted first,
as the insertion-order filter `zeroIndeg` of the node list, and on a
dependency-free inspection the planner walks the objects exactly in graph
insertion order. -/
theorem claim_C4 :
    (∀ (a b a2 b2 : Inspection), a = a2 → b = b2 → plan a b = plan a2 b2) ∧
    (∀ insp : Inspection, insp.deps = [] → insp.topo = graphNodes insp.objs) ∧
    (∀ g : Graph, zeroIndeg g.edges g.nodes ≠ [] →
      ∃ rest, topoList g = zeroIndeg g.edges g.nodes ++ rest) := by
  refine ⟨?_, ?_, topoList_first_generation⟩
  · intro a b a2 b2 h1 h2
    rw [h1, h2]
  · intro insp h
    unfold Inspection.topo topoList Inspection.graph
    simp only [h]
    rw [show graphEdges (graphNodes insp.objs) ([] : List (String × String)) = [] from rfl]
    exact topoAux_edgeless (graphNodes insp.objs)

/-- C4 witness: the amended theorem applied to concrete inspections — a
dependency-free one walked in insertion order and a graph with an edge whose
zero-indegree generation is emitted first. -/
theorem claim_C4_witness :
    plan exEmpty exBA = plan exEmpty exBA ∧ exBA.topo = graphNodes exBA.objs ∧
    (∃ rest, topoList exAB2.graph =
      zeroIndeg exAB2.graph.edges exAB2.graph.nodes ++ rest) :=
  ⟨claim_C4.1 exEmpty exBA exEmpty exBA rfl rfl, claim_C4.2.1 exBA rfl,
   claim_C4.2.2 exAB2.graph (by decide)⟩

theorem topoAux_edge_split (edges : List (String × String)) (p d : String)
    (hpd : (p, d) ∈ edges) :
    ∀ (fuel : Nat) (rem : List String), p ∈ rem → d ∈ topoAux edges fuel rem →
      ∃ t1 t2, topoAux edges fuel rem = t1 ++ p :: t2 ∧ d ∈ t2 := by
  intro fuel
  induction fuel with
  | zero => intro rem _ hd; cases hd
  | succ f ih =>
    intro rem hp hd
    unfold topoAux at hd ⊢
    by_cases hz : (zeroIndeg edges rem).isEmpty
    · rw [if_pos hz] at hd; cases hd
    · rw [if_neg hz] at hd ⊢
      have hdz : d ∉ zeroIndeg edges rem := by
        intro hmem
        have := (List.mem_filter.mp hmem).2
        simp only [decide_eq_true_eq] at this
        exact this (List.any_eq_true.mpr ⟨(p, d), hpd, by simp [hp]⟩)
      have hdrest : d ∈ topoAux edges f (rem.filter (fun n => decide (n ∉ zeroIndeg edges rem))) := by
        rcases List.mem_append.mp hd with h1 | h2
        · exact absurd h1 hdz
        · exact h2
      by_cases hpz : p ∈ zeroIndeg edges rem
      · rcases List.append_of_mem hpz with ⟨z1, z2, hsplit⟩
        refine ⟨z1, z2 ++ topoAux edges f (rem.filter (fun n => decide (n ∉ zeroIndeg edges rem))), ?_, ?_⟩
        · rw [hsplit]
          simp [List.append_assoc]
        · exact List.mem_append.mpr (Or.inr hdrest)
      · have hprest : p ∈ rem.filter (fun n => decide (n ∉ zeroIndeg edges rem)) :=
          List.mem_filter.mpr ⟨hp, by simpa using hpz⟩
        rcases ih _ hprest hdrest with ⟨t1, t2, hsplit, hdt2⟩
        refine ⟨zeroIndeg edges rem ++ t1, t2, ?_, hdt2⟩
        rw [hsplit]
        simp [List.append_assoc]

theorem topoAux_nodup (edges : List (String × String)) :
    ∀ (fuel : Nat) (rem : List String), rem.Nodup → (topoAux edges fuel rem).Nodup := by
  intro fuel
  induction fuel with
  | zero => intro rem _; exact List.nodup_nil
  | succ f ih =>
    intro rem hn
    unfold topoAux
    by_cases hz : (zeroIndeg edges rem).isEmpty
    · rw [if_pos hz]; exact List.nodup_nil
    · rw [if_neg hz]
      refine List.nodup_append.mpr ⟨hn.filter _, ih _ (hn.filter _), ?_⟩
      intro x hxz hxrest
      have := List.mem_filter.mp
        (topoAux_subset edges f (rem.filter (fun n => decide (n ∉ zeroIndeg edges rem))) x hxrest)
      simp only [decide_eq_true_eq] at this
      exact this.2 hxz

theorem insertNode_nodup (ns : List String) (n : String) (h : ns.Nodup) :
    (insertNode ns n).Nodup := by
  unfold insertNode
  by_cases hm : n ∈ ns
  · rw [if_pos hm]; exact h
  · rw [if_neg hm]
    refine List.nodup_append.mpr ⟨h, List.nodup_singleton n, ?_⟩
    intro x hx hxn
    rcases List.mem_singleton.mp hxn with rfl
    exact hm hx

theorem graphNodes_nodup (objs : List DBObject) : (graphNodes objs).Nodup := by
  unfold graphNodes
  suffices hgen : ∀ acc : List String, acc.Nodup →
      (objs.foldl (fun ns o => insertNode ns o.identity) acc).Nodup from
    hgen [] List.nodup_nil
  induction objs with
  | nil => intro acc h; exact h
  | cons o rest ih =>
    intro acc h
    exact ih (insertNode acc o.identity) (insertNode_nodup acc o.identity h)

theorem insertEdge_mem (es : List (String × String)) (e x : String × String) :
    x ∈ insertEdge es e → x ∈ es ∨ x = e := by
  unfold insertEdge
  by_cases hm : e ∈ es
  · rw [if_pos hm]; exact Or.inl
  · rw [if_neg hm]
    intro hx
    rcases List.mem_append.mp hx with h1 | h2
    · exact Or.inl h1
    · exact Or.inr (List.mem_singleton.mp h2)

theorem graphEdges_aux (ns : List String) :
    ∀ (deps : List (String × String)) (acc : List (String × String)),
      (∀ x ∈ acc, x.1 ∈ ns ∧ x.2 ∈ ns) →
      ∀ x ∈ deps.foldl (fun es d =>
        if d.1 ∈ ns ∧ d.2 ∈ ns then insertEdge es (d.2, d.1) else es) acc,
      x.1 ∈ ns ∧ x.2 ∈ ns := by
  intro deps
  induction deps with
  | nil => intro acc hacc x hx; exact hacc x hx
  | cons dd rest ih =>
    intro acc hacc x hx
    simp only [List.foldl_cons] at hx
    by_cases hc : dd.1 ∈ ns ∧ dd.2 ∈ ns
    · rw [if_pos hc] at hx
      refine ih (insertEdge acc (dd.2, dd.1)) ?_ x hx
      intro y hy
      rcases insertEdge_mem acc (dd.2, dd.1) y hy with h1 | rfl
      · exact hacc y h1
      · exact ⟨hc.2, hc.1⟩
    · rw [if_neg hc] at hx
      exact ih acc hacc x hx

theorem graphEdges_mem_nodes (ns : List String) (deps : List (String × String))
    (a b : String) (h : (a, b) ∈ graphEdges ns deps) : a ∈ ns ∧ b ∈ ns := by
  unfold graphEdges at h
  exact graphEdges_aux ns deps [] (by intro x hx; cases hx) (a, b) h

theorem lookup_mem (insp : Inspection) (i : String) (o : DBObject)
    (h : insp.lookup i = some o) : o ∈ insp.objs := by
  unfold Inspection.lookup at h
  exact List.mem_reverse.mp (List.mem_of_find?_eq_some h)

theorem isView_false_of_viewFree (insp : Inspection)
    (hv : ∀ o ∈ insp.objs, o.obj_type ≠ ObjType.view) (d : String) :
    insp.isView d = false := by
  unfold Inspection.isView
  cases h : insp.lookup d with
  | none => rfl
  | some o => exact beq_eq_false_iff_ne.mpr (hv o (lookup_mem insp d o h))

theorem viewDrops_nil_of_viewFree (other : Inspection)
    (hv : ∀ o ∈ other.objs, o.obj_type ≠ ObjType.view) (ident : String) :
    viewDrops other ident = [] := by
  unfold viewDrops
  rw [List.filter_eq_nil_iff.mpr (fun a _ => by
    rw [isView_false_of_viewFree other hv a]
    exact Bool.false_ne_true)]
  rfl

theorem viewCreates_nil_of_viewFree (self : Inspection)
    (hv : ∀ o ∈ self.objs, o.obj_type ≠ ObjType.view) (ident : String) :
    viewCreates self ident = [] := by
  unfold viewCreates
  rw [List.filter_eq_nil_iff.mpr (fun a _ => by
    rw [isView_false_of_viewFree self hv a]
    exact Bool.false_ne_true)]
  rfl

theorem changesetCode_viewFree (self other : Inspection)
    (hvs : ∀ o ∈ other.objs, o.obj_type ≠ ObjType.view)
    (hvt : ∀ o ∈ self.objs, o.obj_type ≠ ObjType.view) :
    changesetCode self other =
      self.topo.map (step1 other) ++
      other.topo.reverse.filterMap (fun ident =>
        if (self.lookup ident).isNone then some (Op.drop, ident) else none) := by
  rw [changesetCode_eq_spec]
  unfold specChangeset specPhase1 specPhase2
  congr 1
  apply flatten_map_singleton
  intro ident _
  by_cases h : (other.lookup ident).isNone
  · rw [if_pos h]
    unfold step1
    rw [if_pos h]
  · rw [if_neg h]
    unfold step1
    rw [if_neg h]
    have h1 := viewDrops_nil_of_viewFree other hvs ident
    have h2 := viewCreates_nil_of_viewFree self hvt ident
    unfold viewDrops at h1
    unfold viewCreates at h2
    rw [List.filter_reverse] at h1
    have h1' : (descList other.graph ident).filter other.isView = [] := by
      have := congrArg List.reverse h1
      simpa using this
    rw [h1']
    have h2' : (descList self.graph ident).filter self.isView = [] := by
      exact List.map_eq_nil_iff.mp h2
    rw [h2']
    rfl

theorem step1_snd (other : Inspection) (ident : String) : (step1 other ident).2 = ident := by
  unfold step1
  split <;> rfl

theorem step1_fst_ne_drop (other : Inspection) (ident : String) :
    (step1 other ident).1 ≠ Op.drop := by
  unfold step1
  split
  · exact fun h => Op.noConfusion h
  · exact fun h => Op.noConfusion h

theorem changeset_viewFree_nodup (self other : Inspection)
    (hvs : ∀ o ∈ other.objs, o.obj_type ≠ ObjType.view)
    (hvt : ∀ o ∈ self.objs, o.obj_type ≠ ObjType.view) :
    (changesetCode self other).Nodup := by
  rw [changesetCode_viewFree self other hvs hvt]
  refine List.nodup_append.mpr ⟨?_, ?_, ?_⟩
  · refine List.Nodup.map ?_ ?_
    · intro a b h
      have := congrArg Prod.snd h
      rwa [step1_snd, step1_snd] at this
    · exact topoAux_nodup _ _ _ (graphNodes_nodup self.objs)
  · refine List.Nodup.filterMap ?_ ?_
    · intro a a2 b hb hb2
      by_cases h : (self.lookup a).isNone
      · rw [if_pos h] at hb
        by_cases h2 : (self.lookup a2).isNone
        · rw [if_pos h2] at hb2
          have e1 : (Op.drop, a) = b := by simpa using hb
          have e2 : (Op.drop, a2) = b := by simpa using hb2
          have := e1.trans e2.symm
          exact ((Prod.mk.injEq _ _ _ _).mp this).2
        · rw [if_neg h2] at hb2
          simp at hb2
      · rw [if_neg h] at hb
        simp at hb
    · exact List.nodup_reverse.mpr (topoAux_nodup _ _ _ (graphNodes_nodup other.objs))
  · intro x hx hx2
    rcases List.mem_map.mp hx with ⟨ident, _, rfl⟩
    rcases List.mem_filterMap.mp hx2 with ⟨a, _, ha⟩
    by_cases h : (self.lookup a).isNone
    · rw [if_pos h] at ha
      have he : (Op.drop, a) = step1 other ident := by simpa using ha
      exact step1_fst_ne_drop other ident (by rw [← he])
    · rw [if_neg h] at ha
      simp at ha

theorem dedupSpec_of_nodup :
    ∀ (post pre : List Change), (pre ++ post).Nodup → dedupSpec pre post = post := by
  intro post
  induction post with
  | nil => intro pre _; rfl
  | cons c post' ih =>
    intro pre h
    have hparts := List.nodup_append.mp h
    have hcpre : c ∉ pre := fun hc => hparts.2.2 hc (List.mem_cons_self c post')
    have hcpost : c ∉ post' := by
      have := hparts.2.1
      rw [List.nodup_cons] at this
      exact this.1
    have hrec : dedupSpec (pre ++ [c]) post' = post' := by
      apply ih
      have : (pre ++ [c]) ++ post' = pre ++ c :: post' := by simp
      rw [this]
      exact h
    simp only [dedupSpec, hrec]
    obtain ⟨op, ident⟩ := c
    cases op with
    | drop => rw [if_neg hcpre]; rfl
    | create => rw [if_neg hcpost]; rfl
    | alter => rfl

theorem dedupCode_of_nodup (l : List Change) (h : l.Nodup) : dedupCode l = l := by
  rw [dedupCode_eq_spec]
  exact dedupSpec_of_nodup l [] (by simpa using h)

theorem render_create_eq (src tgt : Inspection) (p : String) (op : DBObject)
    (h : tgt.lookup p = some op) (hne : (dispatchCreate op).isEmpty = false) :
    renderChange src tgt (Op.create, p) = [formatStatement (dispatchCreate op)] := by
  simp only [renderChange, h, hne]
  rfl

theorem render_drop_eq (src tgt : Inspection) (p : String) (o : DBObject)
    (h : src.lookup p = some o) :
    renderChange src tgt (Op.drop, p) = [formatStatement (dispatchDrop o)] := by
  simp only [renderChange, h]

theorem flatten_map_split {α β : Type} (f : α → List β) (A B : List α) (c : α) (y : β)
    (hc : f c = [y]) :
    ((A ++ c :: B).map f).flatten = (A.map f).flatten ++ y :: (B.map f).flatten := by
  rw [List.map_append, List.map_cons, List.flatten_append, List.flatten_cons, hc]
  rfl

theorem stmtPrecedes_get (l : List String) (a b : String) (h : stmtPrecedes l a b) :
    ∃ i j, i < j ∧ l.get? i = some a ∧ l.get? j = some b := by
  rcases h with ⟨u, v, heq, hmem⟩
  rcases List.append_of_mem hmem with ⟨v1, v2, rfl⟩
  refine ⟨u.length, u.length + v1.length + 1, by omega, ?_, ?_⟩
  · rw [heq, List.get?_append_right (Nat.le_refl u.length)]
    simp
  · rw [heq, List.get?_append_right (by omega)]
    have he : u.length + v1.length + 1 - u.length = v1.length + 1 := by omega
    rw [he]
    simp only [List.get?_cons_succ]
    rw [List.get?_append_right (Nat.le_refl v1.length)]
    simp

/-- C2 (amended): for view-free inspections the ordering invariants hold:
along every target dependency edge whose endpoints are both created, the
prerequisite's creation statement precedes the dependent's; along every
source dependency edge whose endpoints are both dropped, the dependent's
drop statement precedes the prerequisite's. -/
theorem claim_C2 (src tgt : Inspection)
    (hvs : ∀ o ∈ src.objs, o.obj_type ≠ ObjType.view)
    (hvt : ∀ o ∈ tgt.objs, o.obj_type ≠ ObjType.view) :
    (∀ p d op od, (p, d) ∈ tgt.graph.edges → d ∈ tgt.topo →
      src.lookup p = none → src.lookup d = none →
      tgt.lookup p = some op → tgt.lookup d = some od →
      (dispatchCreate op).isEmpty = false → (dispatchCreate od).isEmpty = false →
      stmtPrecedes (plan src tgt) (formatStatement (dispatchCreate op))
        (formatStatement (dispatchCreate od))) ∧
    (∀ p d op od, (p, d) ∈ src.graph.edges → d ∈ src.topo →
      tgt.lookup p = none → tgt.lookup d = none →
      src.lookup p = some op → src.lookup d = some od →
      stmtPrecedes (plan src tgt) (formatStatement (dispatchDrop od))
        (formatStatement (dispatchDrop op))) := by
  have huniq : planUniq src tgt =
      tgt.topo.map (step1 src) ++
      src.topo.reverse.filterMap (fun ident =>
        if (tgt.lookup ident).isNone then some (Op.drop, ident) else none) := by
    unfold planUniq
    rw [dedupCode_of_nodup _ (changeset_viewFree_nodup tgt src hvs hvt)]
    exact changesetCode_viewFree tgt src hvs hvt
  constructor
  · intro p d op od hedge hd hpabs hdabs hop hod hcp hcd
    have hp_nodes : p ∈ tgt.graph.nodes :=
      (graphEdges_mem_nodes tgt.graph.nodes tgt.deps p d hedge).1
    obtain ⟨t1, t2, hsplit, hdt2⟩ :=
      topoAux_edge_split tgt.graph.edges p d hedge tgt.graph.nodes.length
        tgt.graph.nodes hp_nodes hd
    have hstep_p : step1 src p = (Op.create, p) := by
      unfold step1
      rw [hpabs]
      rfl
    have hstep_d : step1 src d = (Op.create, d) := by
      unfold step1
      rw [hdabs]
      rfl
    have htopo : tgt.topo = t1 ++ p :: t2 := hsplit
    have huniq2 : planUniq src tgt =
        t1.map (step1 src) ++ (Op.create, p) ::
          (t2.map (step1 src) ++
            src.topo.reverse.filterMap (fun ident =>
              if (tgt.lookup ident).isNone then some (Op.drop, ident) else none)) := by
      rw [huniq, htopo, List.map_append, List.map_cons, hstep_p]
      simp [List.append_assoc]
    refine ⟨((t1.map (step1 src)).map (renderChange src tgt)).flatten,
      ((t2.map (step1 src) ++
        src.topo.reverse.filterMap (fun ident =>
          if (tgt.lookup ident).isNone then some (Op.drop, ident) else none)).map
        (renderChange src tgt)).flatten, ?_, ?_⟩
    · unfold plan
      rw [huniq2]
      exact flatten_map_split (renderChange src tgt) _ _ _ _
        (render_create_eq src tgt p op hop hcp)
    · apply List.mem_flatten.mpr
      refine ⟨renderChange src tgt (Op.create, d), ?_, ?_⟩
      · apply List.mem_map_of_mem
        apply List.mem_append.mpr (Or.inl ?_)
        rw [← hstep_d]
        exact List.mem_map_of_mem _ hdt2
      · rw [render_create_eq src tgt d od hod hcd]
        exact List.mem_singleton.mpr rfl
  · intro p d op od hedge hd hpabs hdabs hop hod
    have hp_nodes : p ∈ src.graph.nodes :=
      (graphEdges_mem_nodes src.graph.nodes src.deps p d hedge).1
    obtain ⟨t1, t2, hsplit, hdt2⟩ :=
      topoAux_edge_split src.graph.edges p d hedge src.graph.nodes.length
        src.graph.nodes hp_nodes hd
    rcases List.append_of_mem hdt2 with ⟨u1, u2, hu⟩
    have hrev : src.topo.reverse =
        u2.reverse ++ d :: (u1.reverse ++ p :: t1.reverse) := by
      show (topoList src.graph).reverse = _
      rw [show topoList src.graph = t1 ++ p :: t2 from hsplit, hu]
      simp
    have hgp : (fun ident =>
        if (tgt.lookup ident).isNone then some (Op.drop, ident) else none) p =
        some (Op.drop, p) := by
      simp [hpabs]
    have hgd : (fun ident =>
        if (tgt.lookup ident).isNone then some (Op.drop, ident) else none) d =
        some (Op.drop, d) := by
      simp [hdabs]
    have hphase2 : src.topo.reverse.filterMap (fun ident =>
        if (tgt.lookup ident).isNone then some (Op.drop, ident) else none) =
        u2.reverse.filterMap (fun ident =>
          if (tgt.lookup ident).isNone then some (Op.drop, ident) else none) ++
        (Op.drop, d) ::
        (u1.reverse ++ p :: t1.reverse).filterMap (fun ident =>
          if (tgt.lookup ident).isNone then some (Op.drop, ident) else none) := by
      rw [hrev, List.filterMap_append, List.filterMap_cons, hdabs]
      rfl
    have hdp_mem : (Op.drop, p) ∈
        (u1.reverse ++ p :: t1.reverse).filterMap (fun ident =>
          if (tgt.lookup ident).isNone then some (Op.drop, ident) else none) := by
      apply List.mem_filterMap.mpr
      exact ⟨p, List.mem_append.mpr (Or.inr (List.mem_cons_self p t1.reverse)), hgp⟩
    have huniq2 : planUniq src tgt =
        (tgt.topo.map (step1 src) ++
          u2.reverse.filterMap (fun ident =>
            if (tgt.lookup ident).isNone then some (Op.drop, ident) else none)) ++
        (Op.drop, d) ::
        (u1.reverse ++ p :: t1.reverse).filterMap (fun ident =>
          if (tgt.lookup ident).isNone then some (Op.drop, ident) else none) := by
      rw [huniq, hphase2]
      simp [List.append_assoc]
    refine ⟨(((tgt.topo.map (step1 src) ++
        u2.reverse.filterMap (fun ident =>
          if (tgt.lookup ident).isNone then some (Op.drop, ident) else none))).map
        (renderChange src tgt)).flatten,
      (((u1.reverse ++ p :: t1.reverse).filterMap (fun ident =>
        if (tgt.lookup ident).isNone then some (Op.drop, ident) else none)).map
        (renderChange src tgt)).flatten, ?_, ?_⟩
    · unfold plan
      rw [huniq2]
      exact flatten_map_split (renderChange src tgt) _ _ _ _
        (render_drop_eq src tgt d od hod)
    · apply List.mem_flatten.mpr
      refine ⟨renderChange src tgt (Op.drop, p), List.mem_map_of_mem _ hdp_mem, ?_⟩
      rw [render_drop_eq src tgt p op hop]
      exact List.mem_singleton.mpr rfl

/-- C2 counterexample: in the source, index `vi` depends on view `p`
(edge `p → vi`), both are dropped, yet the prerequisite's drop (`DROP VIEW
p;`) is emitted before the dependent's (`DROP INDEX vi;`), because the
cascaded view drop of the altered table `t` precedes the reverse-topological
drop walk. -/
theorem claim_C2_counterexample :
    plan exSrcDrop exTgtDrop =
      [formatStatement (dispatchDrop exP), formatStatement (dispatchDrop exI)] ∧
    ("p", "vi") ∈ exSrcDrop.graph.edges ∧
    exTgtDrop.lookup "p" = none ∧ exTgtDrop.lookup "vi" = none ∧
    ¬ stmtPrecedes (plan exSrcDrop exTgtDrop)
        (formatStatement (dispatchDrop exI)) (formatStatement (dispatchDrop exP)) := by
  refine ⟨by decide, by decide, by decide, by decide, ?_⟩
  intro h
  obtain ⟨i, j, hij, hi, hj⟩ := stmtPrecedes_get _ _ _ h
  rw [show plan exSrcDrop exTgtDrop = ["DROP VIEW p;", "DROP INDEX vi;"] from by decide]
    at hi hj
  match j, hij, hj with
  | 1, hij, hj =>
    have : ("DROP INDEX vi;" : String) = formatStatement (dispatchDrop exP) := by
      have h1 : (["DROP VIEW p;", "DROP INDEX vi;"].get? 1) =
          some "DROP INDEX vi;" := rfl
      rw [h1] at hj
      exact Option.some.inj hj
    exact absurd this (by decide)
  | (n + 2), hij, hj =>
    have h1 : (["DROP VIEW p;", "DROP INDEX vi;"].get? (n + 2)) = none := rfl
    rw [h1] at hj
    cases hj

/-- C2 witness: the amended theorem applied to view-free inspections with a
created edge (`a → b` in the target) and a dropped edge (`c → d` in the
source). -/
theorem claim_C2_witness :
    stmtPrecedes (plan exCD2 exAB2)
      (formatStatement (dispatchCreate exTa)) (formatStatement (dispatchCreate exTb)) ∧
    stmtPrecedes (plan exCD2 exAB2)
      (formatStatement (dispatchDrop exTd)) (formatStatement (dispatchDrop exTc)) :=
  ⟨(claim_C2 exCD2 exAB2 (by decide) (by decide)).1 "a" "b" exTa exTb
      (by decide) (by decide) (by decide) (by decide) (by decide) (by decide)
      (by decide) (by decide),
   (claim_C2 exCD2 exAB2 (by decide) (by decide)).2 "c" "d" exTc exTd
      (by decide) (by decide) (by decide) (by decide) (by decide) (by decide)⟩
